import Mathlib

set_option linter.unusedVariables false

/-!
Verification development for the obcache-go caching engine.

The embedding is shallow and sequential: Go methods become pure Lean
functions on explicit state, timestamps are `Int` nanosecond values passed
explicitly, Go's `(value, ok)` pairs become `Option`, fallible Go calls
become `Except`, and a Go panic is a distinct constructor of the result
type of the function that can panic.  Keys are `String`, as in the source.
-/

namespace Obcache

/-- The opaque payload a cache stores (Go `any`).  A small closed universe
with decidable equality so states can be evaluated on concrete inputs;
`bytes` stands for Go `[]byte`, the shape the compression collaborator
produces. -/
inductive Val where
  | unit : Val
  | str : String → Val
  | num : Int → Val
  | bytes : List Nat → Val
  deriving DecidableEq, Repr

/-- Modelled from the spec: compression metadata attached to an entry
(algorithm name plus original/compressed sizes); the `internal/entry`
package is not under src/. -/
structure CompressionInfo where
  algorithm : String
  originalSize : Int
  compressedSize : Int
  deriving DecidableEq, Repr

/-- Modelled from the spec: the stored unit of data of `internal/entry`
(not under src/) — value, creation/expiration timestamps, optional
compression metadata.  `expiresAt = none` means "no expiration". -/
structure Entry where
  value : Val
  createdAt : Int
  expiresAt : Option Int
  compressionInfo : Option CompressionInfo
  deriving DecidableEq, Repr

/-- Modelled from the spec: construct-with-ttl sets `expiresAt` to
creation time plus ttl. -/
def Entry.new (now : Int) (v : Val) (ttl : Int) : Entry :=
  { value := v, createdAt := now, expiresAt := some (now + ttl), compressionInfo := none }

/-- Modelled from the spec: construct-without-ttl leaves `expiresAt` absent. -/
def Entry.newWithoutTTL (now : Int) (v : Val) : Entry :=
  { value := v, createdAt := now, expiresAt := none, compressionInfo := none }

/-- Modelled from the spec: `isExpired` holds when `expiresAt` is present
and `now ≥ expiresAt`; a pure function of the clock. -/
def Entry.IsExpired (e : Entry) (now : Int) : Bool :=
  match e.expiresAt with
  | some t => decide (t ≤ now)
  | none => false

/-- Modelled from the spec: an entry is compressed when compression
metadata was set at construction. -/
def Entry.IsCompressed (e : Entry) : Bool :=
  e.compressionInfo.isSome

/-- Association-list lookup by key, first (most recent) match. -/
def lookupKey : List (String × Entry) → String → Option Entry
  | [], _ => none
  | p :: rest, k => if p.1 = k then some p.2 else lookupKey rest k

/-- Remove the first pair with the given key. -/
def eraseKey : List (String × Entry) → String → List (String × Entry)
  | [], _ => []
  | p :: rest, k => if p.1 = k then rest else p :: eraseKey rest k

/-- State of `LRUStrategy` (src/unnamed/part_000): the wrapped
hashicorp/golang-lru cache is modelled as a key-ordered list, most
recently used first, plus the strategy's `evictedKey`/`evictedValue`
fields that the wrapped cache's evict callback writes. -/
structure LRUStrategy where
  items : List (String × Entry)
  capacity : Int
  evictedKey : String
  evictedValue : Option Entry
  deriving DecidableEq, Repr

/-- Outcome of `NewLRUStrategy`: the Go function returns only
`*LRUStrategy` and panics when the wrapped LRU constructor rejects the
capacity, so the embedding has no error-return constructor at all. -/
inductive StrategyInit where
  | ok : LRUStrategy → StrategyInit
  | panicked : String → StrategyInit
  deriving DecidableEq, Repr

/-- `NewLRUStrategy` (src/unnamed/part_000 lines 20-37): the wrapped
`lru.NewWithEvict` fails for any non-positive size, and the strategy
constructor turns that failure into a panic. -/
def NewLRUStrategy (capacity : Int) : StrategyInit :=
  if capacity ≤ 0 then
    StrategyInit.panicked "failed to create LRU cache: must provide a positive size"
  else
    StrategyInit.ok { items := [], capacity := capacity, evictedKey := "", evictedValue := none }

/-- `LRUStrategy.Add` (src/unnamed/part_000 lines 40-52).  The method
clears the eviction-capture fields, runs the wrapped cache's `Add`
(update-and-move-to-front for a present key; push-front then, when the
length exceeds the capacity, remove-oldest for a new key), and returns
whatever the evict callback captured together with the wrapped `Add`'s
eviction flag. -/
def LRUStrategy.Add (l : LRUStrategy) (key : String) (e : Entry) :
    LRUStrategy × String × Option Entry × Bool :=
  match lookupKey l.items key with
  | some _ =>
      ({ l with items := (key, e) :: eraseKey l.items key,
                evictedKey := "", evictedValue := none }, "", none, false)
  | none =>
      let items := (key, e) :: l.items
      if (items.length : Int) > l.capacity then
        match items.getLast? with
        | some p =>
            ({ l with items := items.dropLast,
                      evictedKey := p.1, evictedValue := some p.2 }, p.1, some p.2, true)
        | none =>
            ({ l with items := items, evictedKey := "", evictedValue := none }, "", none, true)
      else
        ({ l with items := items, evictedKey := "", evictedValue := none }, "", none, false)

/-- `LRUStrategy.Get` (src/unnamed/part_000): lookup that marks the key
most recently used. -/
def LRUStrategy.Get (l : LRUStrategy) (key : String) : LRUStrategy × Option Entry :=
  match lookupKey l.items key with
  | some e => ({ l with items := (key, e) :: eraseKey l.items key }, some e)
  | none => (l, none)

/-- `LRUStrategy.Remove` (src/unnamed/part_000).  The wrapped cache fires
the evict callback on removal, which writes the capture fields; `Add`
clears them before they are ever read again. -/
def LRUStrategy.Remove (l : LRUStrategy) (key : String) : LRUStrategy × Bool :=
  match lookupKey l.items key with
  | some e =>
      ({ l with items := eraseKey l.items key,
                evictedKey := key, evictedValue := some e }, true)
  | none => (l, false)

/-- `LRUStrategy.Contains` (src/unnamed/part_000). -/
def LRUStrategy.Contains (l : LRUStrategy) (key : String) : Bool :=
  (lookupKey l.items key).isSome

/-- `LRUStrategy.Keys` (src/unnamed/part_000): the wrapped cache lists
keys oldest first. -/
def LRUStrategy.Keys (l : LRUStrategy) : List String :=
  (l.items.map Prod.fst).reverse

/-- `LRUStrategy.Len` (src/unnamed/part_000 lines 87-92). -/
def LRUStrategy.Len (l : LRUStrategy) : Nat :=
  l.items.length

/-- `LRUStrategy.Clear` (src/unnamed/part_000): `Purge` empties the
wrapped cache.  Purge's callback writes to the capture fields are dead
state (the next `Add` clears them before any read), so they are left
unchanged here. -/
def LRUStrategy.Clear (l : LRUStrategy) : LRUStrategy :=
  { l with items := [] }

/-- `LRUStrategy.Capacity` (src/unnamed/part_000). -/
def LRUStrategy.Capacity (l : LRUStrategy) : Int :=
  l.capacity

/-- `LRUStrategy.Peek` (src/unnamed/part_000): lookup with no effect on
recency order. -/
def LRUStrategy.Peek (l : LRUStrategy) (key : String) : Option Entry :=
  lookupKey l.items key

/-- One call against the strategy API, for stating trace invariants. -/
inductive StratOp where
  | add : String → Entry → StratOp
  | get : String → StratOp
  | remove : String → StratOp
  | clear : StratOp
  deriving DecidableEq, Repr

/-- Apply one strategy call, keeping only the post-state. -/
def applyOp (l : LRUStrategy) : StratOp → LRUStrategy
  | StratOp.add k e => (l.Add k e).1
  | StratOp.get k => (l.Get k).1
  | StratOp.remove k => (l.Remove k).1
  | StratOp.clear => l.Clear

/-- States observed after each call of a sequence, in order. -/
def runOps (l : LRUStrategy) : List StratOp → List LRUStrategy
  | [] => []
  | op :: rest =>
      let l2 := applyOp l op
      l2 :: runOps l2 rest

lemma eraseKey_length_le (items : List (String × Entry)) (k : String) :
    (eraseKey items k).length ≤ items.length := by
  induction items with
  | nil => simp [eraseKey]
  | cons p rest ih =>
      by_cases h : p.1 = k
      · simp [eraseKey, h]
      · simp only [eraseKey, h, if_false, List.length_cons, ite_false]
        omega

lemma eraseKey_length_of_mem (items : List (String × Entry)) (k : String)
    (h : (lookupKey items k).isSome) :
    (eraseKey items k).length + 1 = items.length := by
  induction items with
  | nil => simp [lookupKey] at h
  | cons p rest ih =>
      by_cases hp : p.1 = k
      · simp [eraseKey, hp]
      · simp [lookupKey, hp] at h
        simp [eraseKey, hp, ih h]

lemma applyOp_capacity (l : LRUStrategy) (op : StratOp) :
    (applyOp l op).capacity = l.capacity := by
  cases op <;>
    simp only [applyOp, LRUStrategy.Add, LRUStrategy.Get, LRUStrategy.Remove,
      LRUStrategy.Clear] <;>
    (repeat' split) <;> rfl

lemma applyOp_len_le (l : LRUStrategy) (op : StratOp)
    (hpos : 0 ≤ l.capacity) (h : (l.Len : Int) ≤ l.capacity) :
    ((applyOp l op).Len : Int) ≤ (applyOp l op).capacity := by
  rw [applyOp_capacity]
  simp only [LRUStrategy.Len] at h ⊢
  cases op with
  | add k e =>
      simp only [applyOp, LRUStrategy.Add]
      split
      · rename_i e0 hk
        have h1 := eraseKey_length_of_mem l.items k (by simp [hk])
        simp only [List.length_cons]
        omega
      · rename_i hk
        split
        · rename_i hc
          split
          · rename_i p hp
            simp only [List.length_cons] at hc
            simp only [List.length_dropLast, List.length_cons]
            omega
          · rename_i hp
            rw [List.getLast?_eq_none_iff] at hp
            exact absurd hp (List.cons_ne_nil _ _)
        · rename_i hc
          simp only [List.length_cons] at hc ⊢
          omega
  | get k =>
      simp only [applyOp, LRUStrategy.Get]
      split
      · rename_i e0 hk
        have h1 := eraseKey_length_of_mem l.items k (by simp [hk])
        simp only [List.length_cons]
        omega
      · exact h
  | remove k =>
      simp only [applyOp, LRUStrategy.Remove]
      split
      · rename_i e0 hk
        have h1 := eraseKey_length_le l.items k
        simp only []
        omega
      · exact h
  | clear =>
      simp only [applyOp, LRUStrategy.Clear, List.length_nil, Nat.cast_zero]
      exact hpos

lemma runOps_invariant (l : LRUStrategy) (ops : List StratOp)
    (hpos : 0 ≤ l.capacity) (h : (l.Len : Int) ≤ l.capacity) :
    ∀ s ∈ runOps l ops, (s.Len : Int) ≤ s.capacity := by
  induction ops generalizing l with
  | nil => simp [runOps]
  | cons op rest ih =>
      intro s hs
      simp only [runOps, List.mem_cons] at hs
      have hstep : ((applyOp l op).Len : Int) ≤ (applyOp l op).capacity :=
        applyOp_len_le l op hpos h
      have hpos2 : 0 ≤ (applyOp l op).capacity := by
        rw [applyOp_capacity]; exact hpos
      cases hs with
      | inl heq => simpa [heq] using hstep
      | inr htl => exact ih (applyOp l op) hpos2 hstep s htl

lemma runOps_capacity (l : LRUStrategy) (ops : List StratOp) :
    ∀ s ∈ runOps l ops, s.capacity = l.capacity := by
  induction ops generalizing l with
  | nil => simp [runOps]
  | cons op rest ih =>
      intro s hs
      simp only [runOps, List.mem_cons] at hs
      cases hs with
      | inl heq => simp [heq, applyOp_capacity]
      | inr htl =>
          have := ih (applyOp l op) s htl
          simpa [applyOp_capacity] using this

/-- C1: after every call of any sequence of add/get/remove/clear calls on
an LRU strategy constructed with positive capacity, `Len` is at most the
construction capacity. -/
theorem lru_capacity_invariant (capacity : Int) (s : LRUStrategy)
    (h : NewLRUStrategy capacity = StrategyInit.ok s) (ops : List StratOp) :
    ∀ l ∈ runOps s ops, (l.Len : Int) ≤ capacity := by
  have hpos : ¬ capacity ≤ 0 := by
    intro hc
    simp [NewLRUStrategy, hc] at h
  have hs : s = { items := [], capacity := capacity, evictedKey := "", evictedValue := none } := by
    simp [NewLRUStrategy, hpos] at h
    exact h.symm
  intro l hl
  have hcap0 : (0 : Int) ≤ capacity := by omega
  have hinv := runOps_invariant s ops
    (by rw [hs]; exact hcap0) (by rw [hs]; simp [LRUStrategy.Len]; omega) l hl
  have hcap := runOps_capacity s ops l hl
  rw [hcap, hs] at hinv
  exact hinv

/-- Witness for C1 at a concrete construction and call sequence. -/
theorem lru_capacity_invariant_witness :
    NewLRUStrategy 2 = StrategyInit.ok
      { items := [], capacity := 2, evictedKey := "", evictedValue := none } ∧
    ∀ l ∈ runOps { items := [], capacity := 2, evictedKey := "", evictedValue := none }
        [StratOp.add "a" (Entry.newWithoutTTL 0 (Val.num 1)),
         StratOp.add "b" (Entry.newWithoutTTL 0 (Val.num 2)),
         StratOp.add "c" (Entry.newWithoutTTL 0 (Val.num 3)),
         StratOp.get "a", StratOp.remove "b", StratOp.clear],
      (l.Len : Int) ≤ 2 :=
  ⟨by decide,
   lru_capacity_invariant 2 _ (by decide) _⟩

lemma lookupKey_eq_none_forall {items : List (String × Entry)} {k : String}
    (h : lookupKey items k = none) : ∀ p ∈ items, p.1 ≠ k := by
  induction items with
  | nil => simp
  | cons q rest ih =>
      intro p hp
      by_cases hq : q.1 = k
      · simp [lookupKey, hq] at h
      · simp only [lookupKey, hq, if_neg, ite_false] at h
        simp only [List.mem_cons] at hp
        cases hp with
        | inl he => rw [he]; exact hq
        | inr ht => exact ih h p ht

lemma mem_of_getLast?_eq_some {α : Type} {l : List α} {p : α}
    (h : l.getLast? = some p) : p ∈ l := by
  have hmem : p ∈ l.getLast? := by rw [h]; rfl
  obtain ⟨hne, heq⟩ := List.mem_getLast?_eq_getLast hmem
  rw [heq]
  exact List.getLast_mem hne

lemma getLast?_cons_of_ne_nil {α : Type} (a : α) {l : List α} (h : l ≠ []) :
    (a :: l).getLast? = l.getLast? := by
  cases l with
  | nil => exact absurd rfl h
  | cons b t => exact List.getLast?_cons_cons

lemma dropLast_cons_of_ne_nil {α : Type} (a : α) {l : List α} (h : l ≠ []) :
    (a :: l).dropLast = a :: l.dropLast := by
  cases l with
  | nil => exact absurd rfl h
  | cons b t => rfl

/-- C2: on a full strategy (`Len = capacity`, positive capacity), `Add`
with an untracked key evicts exactly one existing entry — the tracked set
becomes the new pair plus the old set minus its last (least recently used)
pair, and that evicted key/entry pair is what `Add` returns to the caller
with the eviction flag set — while `Add` with a tracked key updates the
value and position without changing `Len` and evicts nothing. -/
theorem lru_add_eviction_spec (l : LRUStrategy) (key : String) (e : Entry)
    (hfull : (l.Len : Int) = l.capacity) (hpos : 0 < l.capacity) :
    (l.Contains key = false →
       ∃ p, l.items.getLast? = some p ∧ p ∈ l.items ∧ p.1 ≠ key ∧
         l.Add key e =
           ({ l with items := (key, e) :: l.items.dropLast,
                     evictedKey := p.1, evictedValue := some p.2 }, p.1, some p.2, true) ∧
         ((l.Add key e).1.Len : Int) = l.capacity) ∧
    (l.Contains key = true →
       (l.Add key e).2.2.2 = false ∧ (l.Add key e).2.2.1 = none ∧
       (l.Add key e).1.Len = l.Len ∧ (l.Add key e).1.items.head? = some (key, e)) := by
  have hlen : (l.items.length : Int) = l.capacity := hfull
  have hne : l.items ≠ [] := by
    intro hnil
    rw [hnil] at hlen
    simp at hlen
    omega
  constructor
  · intro hcont
    have hnone : lookupKey l.items key = none := by
      cases hk : lookupKey l.items key with
      | none => rfl
      | some e0 => simp [LRUStrategy.Contains, hk] at hcont
    have hlast : l.items.getLast? = some (l.items.getLast hne) :=
      List.getLast?_eq_getLast_of_ne_nil hne
    refine ⟨l.items.getLast hne, hlast, mem_of_getLast?_eq_some hlast, ?_, ?_, ?_⟩
    · exact lookupKey_eq_none_forall hnone _ (mem_of_getLast?_eq_some hlast)
    · have hcond : ((((key, e) :: l.items).length : Int) > l.capacity) := by
        simp only [List.length_cons]
        push_cast
        omega
      have hlast2 : ((key, e) :: l.items).getLast? = some (l.items.getLast hne) := by
        rw [getLast?_cons_of_ne_nil _ hne]
        exact hlast
      simp only [LRUStrategy.Add, hnone]
      rw [if_pos hcond, hlast2]
      simp only [dropLast_cons_of_ne_nil _ hne]
    · have hk : lookupKey l.items key = none := hnone
      simp only [LRUStrategy.Add, hk]
      have hcond : ((((key, e) :: l.items).length : Int) > l.capacity) := by
        simp only [List.length_cons]
        push_cast
        omega
      rw [if_pos hcond]
      cases hgl : ((key, e) :: l.items).getLast? with
      | some p =>
          simp only [LRUStrategy.Len, List.length_dropLast, List.length_cons]
          have : 1 ≤ l.items.length := by
            cases hi : l.items with
            | nil => exact absurd hi hne
            | cons q t => simp [hi]
          push_cast
          omega
      | none =>
          rw [List.getLast?_eq_none_iff] at hgl
          exact absurd hgl (List.cons_ne_nil _ _)
  · intro hcont
    have hsome : (lookupKey l.items key).isSome := hcont
    obtain ⟨e0, hk⟩ := Option.isSome_iff_exists.mp hsome
    have hlen2 := eraseKey_length_of_mem l.items key (by simp [hk])
    refine ⟨by simp [LRUStrategy.Add, hk], by simp [LRUStrategy.Add, hk], ?_,
      by simp [LRUStrategy.Add, hk]⟩
    simp only [LRUStrategy.Add, hk, LRUStrategy.Len, List.length_cons]
    omega

/-- Witness for C2 at a concrete full strategy: capacity 2 holding b,a
(a least recent); adding untracked c evicts a with the eviction flag set,
and re-adding tracked b evicts nothing. -/
theorem lru_add_eviction_spec_witness :
    ((LRUStrategy.Add
        { items := [("b", Entry.newWithoutTTL 0 (Val.num 2)),
                    ("a", Entry.newWithoutTTL 0 (Val.num 1))],
          capacity := 2, evictedKey := "", evictedValue := none }
        "c" (Entry.newWithoutTTL 0 (Val.num 3))).2.2.2 = true) ∧
    ((LRUStrategy.Add
        { items := [("b", Entry.newWithoutTTL 0 (Val.num 2)),
                    ("a", Entry.newWithoutTTL 0 (Val.num 1))],
          capacity := 2, evictedKey := "", evictedValue := none }
        "b" (Entry.newWithoutTTL 0 (Val.num 9))).2.2.2 = false) := by
  have h := lru_add_eviction_spec
    { items := [("b", Entry.newWithoutTTL 0 (Val.num 2)),
                ("a", Entry.newWithoutTTL 0 (Val.num 1))],
      capacity := 2, evictedKey := "", evictedValue := none }
    "c" (Entry.newWithoutTTL 0 (Val.num 3)) (by decide) (by decide)
  have h2 := lru_add_eviction_spec
    { items := [("b", Entry.newWithoutTTL 0 (Val.num 2)),
                ("a", Entry.newWithoutTTL 0 (Val.num 1))],
      capacity := 2, evictedKey := "", evictedValue := none }
    "b" (Entry.newWithoutTTL 0 (Val.num 9)) (by decide) (by decide)
  obtain ⟨p, hp, hmem, hnp, hadd, hlen⟩ := h.1 (by decide)
  refine ⟨by rw [hadd], (h2.2 (by decide)).1⟩

/-- A registered hook (src/unnamed/part_002): its priority plus an
identifying tag; the Go handler and condition closures are abstracted by
the `execute` function passed to `invokeHooks`, exactly as the source
wraps them in a closure before the execution loop. -/
structure Hook where
  Priority : Int
  tag : Nat
  deriving DecidableEq, Repr

/-- Sequential hook execution loop of `invokeHooks`
(src/unnamed/part_002 lines 177-180).  Executing one hook either returns
normally or panics with a message; the loop has no recover, so a panic
propagates to the caller and the remaining hooks are skipped. -/
def runHookList : List Hook → (Hook → Except String Unit) → Except String Unit
  | [], _ => Except.ok ()
  | h :: t, execute =>
      match execute h with
      | Except.error e => Except.error e
      | Except.ok _ => runHookList t execute

/-- The priority sort of `invokeHooks` (highest priority first).  The
source's `sort.Slice` is unstable and the source guarantees no order
among equal priorities; insertion sort realizes one admissible order. -/
def sortHooks (hooks : List Hook) : List Hook :=
  List.insertionSort (fun a b => b.Priority ≤ a.Priority) hooks

/-- `Hooks.invokeHooks` (src/unnamed/part_002 lines 162-181): an empty
list returns at once, a list of more than one hook is sorted by priority
first, then the hooks execute in order with no isolation around the
`execute` call. -/
def Hooks.invokeHooks (hooks : List Hook) (execute : Hook → Except String Unit) :
    Except String Unit :=
  if hooks.length ≤ 1 then runHookList hooks execute
  else runHookList (sortHooks hooks) execute

lemma runHookList_ok_iff (l : List Hook) (execute : Hook → Except String Unit) :
    runHookList l execute = Except.ok () ↔ ∀ h ∈ l, execute h = Except.ok () := by
  induction l with
  | nil => simp [runHookList]
  | cons h t ih =>
      simp only [runHookList]
      cases hx : execute h with
      | error e =>
          simp only [List.mem_cons]
          constructor
          · intro habs; exact absurd habs (by simp)
          · intro hall
            have := hall h (Or.inl rfl)
            rw [hx] at this
            exact absurd this (by simp)
      | ok u =>
          cases u
          simp only [List.mem_cons, ih]
          constructor
          · intro hall p hp
            cases hp with
            | inl he => rw [he]; exact hx
            | inr ht => exact hall p ht
          · intro hall p hp
            exact hall p (Or.inr hp)

lemma mem_sortHooks (hooks : List Hook) (h : Hook) :
    h ∈ sortHooks hooks ↔ h ∈ hooks :=
  (List.perm_insertionSort (fun a b => b.Priority ≤ a.Priority) hooks).mem_iff

/-- C7 (amended): hook invocation completes normally exactly when every
registered hook's execution returns without panicking; equivalently, a
panic in any hook propagates out of `invokeHooks` (aborting whatever
cache operation invoked the hooks) instead of being isolated. -/
theorem invoke_hooks_ok_iff_all_ok (hooks : List Hook)
    (execute : Hook → Except String Unit) :
    Hooks.invokeHooks hooks execute = Except.ok () ↔
      ∀ h ∈ hooks, execute h = Except.ok () := by
  unfold Hooks.invokeHooks
  split
  · exact runHookList_ok_iff hooks execute
  · rw [runHookList_ok_iff]
    constructor
    · intro hall h hm
      exact hall h ((mem_sortHooks hooks h).mpr hm)
    · intro hall h hm
      exact hall h ((mem_sortHooks hooks h).mp hm)

/-- Witness for C7's amended theorem: two well-behaved hooks make
`invokeHooks` return normally. -/
theorem invoke_hooks_ok_iff_all_ok_witness :
    Hooks.invokeHooks [{ Priority := 5, tag := 1 }, { Priority := 1, tag := 2 }]
      (fun _ => Except.ok ()) = Except.ok () :=
  (invoke_hooks_ok_iff_all_ok _ _).mpr (by intro h hm; rfl)

/-- C7 counterexample: a single registered hook whose execution panics
makes `invokeHooks` itself end in that panic — the failure is not
isolated at the call boundary and the in-progress cache operation that
raised the notification is aborted by the unwind (the repository's own
TestHookErrorHandling comment accepts exactly this propagation). -/
theorem hook_panic_propagates :
    Hooks.invokeHooks [{ Priority := 0, tag := 0 }]
      (fun _ => Except.error "hook panic") = Except.error "hook panic" := by
  rfl

/-- State of the deduplication coordinator for one key (modelled from the
spec: internal/singleflight is not under src/): either no call is in
flight, or an in-flight record lists the callers that will share its
result. -/
inductive SFState where
  | idle : SFState
  | inflight : List Nat → SFState
  deriving DecidableEq, Repr

/-- Modelled from the spec: a caller arriving at the coordinator becomes
the executor when no call is in flight (flag true: it registers the
record and will run the producer), otherwise it joins the waiters of the
existing record and does not invoke the producer. -/
def SFState.arrive : SFState → Nat → SFState × Bool
  | SFState.idle, c => (SFState.inflight [c], true)
  | SFState.inflight ws, c => (SFState.inflight (ws ++ [c]), false)

/-- One arrival step of a cycle: thread the coordinator state and count
how many callers started a producer execution. -/
def sfStep (acc : SFState × Nat) (c : Nat) : SFState × Nat :=
  let r := SFState.arrive acc.1 c
  (r.1, acc.2 + (if r.2 then 1 else 0))

/-- Modelled from the spec: one miss-and-repopulate cycle of
`do(key, producer)` for a single key.  The callers arrive in an arbitrary
interleaving order (the list), the producer runs `result` (a value or an
error) for the executor, and completion hands that one result to every
registered caller.  Returns the number of producer executions and each
caller's received result. -/
def singleflightCycle (arrivals : List Nat) (result : Except String Val) :
    Nat × List (Nat × Except String Val) :=
  let final := arrivals.foldl sfStep (SFState.idle, 0)
  match final.1 with
  | SFState.idle => (final.2, [])
  | SFState.inflight ws => (final.2, ws.map (fun c => (c, result)))

lemma sf_foldl_inflight (rest : List Nat) (ws : List Nat) (n : Nat) :
    rest.foldl sfStep (SFState.inflight ws, n) = (SFState.inflight (ws ++ rest), n) := by
  induction rest generalizing ws with
  | nil => simp
  | cons c t ih =>
      simp only [List.foldl_cons, sfStep, SFState.arrive]
      have hn : (n + if false = true then 1 else 0) = n := by simp
      rw [hn, ih]
      simp

/-- C3: during one miss-and-repopulate cycle, any nonempty set of
concurrent callers (in any arrival order) triggers exactly one producer
execution, and every caller receives the producer's one result — the
identical value, or the identical error. -/
theorem singleflight_dedup (arrivals : List Nat) (result : Except String Val)
    (h : arrivals ≠ []) :
    (singleflightCycle arrivals result).1 = 1 ∧
    (singleflightCycle arrivals result).2 = arrivals.map (fun c => (c, result)) := by
  cases arrivals with
  | nil => exact absurd rfl h
  | cons a rest =>
      unfold singleflightCycle
      rw [List.foldl_cons]
      have h1 : sfStep (SFState.idle, 0) a = (SFState.inflight [a], 1) := rfl
      rw [h1, sf_foldl_inflight]
      simp

/-- Witness for C3 with three concurrent callers and a successful
producer result. -/
theorem singleflight_dedup_witness :
    (singleflightCycle [1, 2, 3] (Except.ok (Val.num 42))).1 = 1 ∧
    (singleflightCycle [1, 2, 3] (Except.ok (Val.num 42))).2 =
      [(1, Except.ok (Val.num 42)), (2, Except.ok (Val.num 42)),
       (3, Except.ok (Val.num 42))] :=
  singleflight_dedup [1, 2, 3] (Except.ok (Val.num 42)) (by decide)

/-- State of the in-memory strategy store.  Modelled from the spec:
`internal/store/memory` is not under src/ — the store wraps one eviction
strategy (§4.3); the background sweep loop is a separate thread and is
outside this sequential model. -/
structure MemStore where
  strategy : LRUStrategy
  deriving DecidableEq, Repr

/-- Modelled from the spec (§4.3): store `get` delegates to strategy
`Get`; an expired entry is removed immediately (lazy expiration), the
cleanup callback fires with the expired key/entry, and the result is
not-found.  Returns (new store, cleanup-callback firing, result). -/
def MemStore.get (s : MemStore) (now : Int) (key : String) :
    MemStore × Option (String × Entry) × Option Entry :=
  match s.strategy.Get key with
  | (st, some e) =>
      if e.IsExpired now then
        ((MemStore.mk (st.Remove key).1), some (key, e), none)
      else ((MemStore.mk st), none, some e)
  | (st, none) => ((MemStore.mk st), none, none)

/-- Modelled from the spec (§4.3): store `set` delegates to strategy
`Add`; if an eviction occurred the eviction callback fires with the
evicted key/entry before the call returns success (store-level errors
exist only for backend failures, which the memory store has none of). -/
def MemStore.set (s : MemStore) (key : String) (e : Entry) :
    MemStore × Option (String × Entry) :=
  match s.strategy.Add key e with
  | (st, ek, some ee, true) => ((MemStore.mk st), some (ek, ee))
  | (st, _, _, _) => ((MemStore.mk st), none)

/-- Modelled from the spec (§6, §7): store `delete` removes via the
strategy and errors only on backend failure, of which the memory store
has none — it reports success whether or not the key was present. -/
def MemStore.delete (s : MemStore) (key : String) : MemStore × Bool :=
  let r := s.strategy.Remove key
  ((MemStore.mk r.1), r.2)

/-- Modelled from the spec (§6): store `keys` enumerates the strategy. -/
def MemStore.keys (s : MemStore) : List String :=
  s.strategy.Keys

/-- Modelled from the spec (§6): store `len` delegates to the strategy. -/
def MemStore.len (s : MemStore) : Nat :=
  s.strategy.Len

/-- Modelled from the spec (§6): store `clear` empties the strategy and
reports success. -/
def MemStore.clear (s : MemStore) : MemStore :=
  MemStore.mk s.strategy.Clear

/-- Statistics counters of the cache coordinator (`Stats` of
pkg/obcache): monotonic hit/miss/eviction/invalidation counters plus the
key-count gauge. -/
structure Stats where
  hits : Nat
  misses : Nat
  evictions : Nat
  invalidations : Nat
  keyCount : Int
  deriving DecidableEq, Repr

/-- `EvictReason` (src/unnamed/part_002 lines 40-52). -/
inductive EvictReason where
  | lru : EvictReason
  | ttl : EvictReason
  | capacity : EvictReason
  deriving DecidableEq, Repr

/-- A notification raised to the hook collaborator: the four event kinds
of the coordinator with their payloads. -/
inductive Event where
  | hit : String → Val → Event
  | miss : String → Event
  | evict : String → Val → EvictReason → Event
  | invalidate : String → Event
  deriving DecidableEq, Repr

/-- The cache coordinator state (`Cache` of pkg/obcache/cache.go): the
store, the statistics, and the configuration fields the modelled
operations read.  Hook invocation is kept observable as the list of
events an operation raises. -/
structure Cache where
  store : MemStore
  stats : Stats
  defaultTTL : Int
  compressionEnabled : Bool
  deriving DecidableEq, Repr

/-- The eviction callback wired in `New` (cache.go lines 97-105): a
capacity eviction reported by the store increments the eviction counter
and raises an evict notification with reason capacity. -/
def Cache.applyEvictCallback (c : Cache) (fired : Option (String × Entry)) :
    Cache × List Event :=
  match fired with
  | some (k, e) =>
      ({ c with stats := { c.stats with evictions := c.stats.evictions + 1 } },
       [Event.evict k e.value EvictReason.capacity])
  | none => (c, [])

/-- The cleanup callback wired in `New` (cache.go lines 107-114): a TTL
removal reported by the store increments the eviction counter and raises
an evict notification with reason ttl. -/
def Cache.applyCleanupCallback (c : Cache) (fired : Option (String × Entry)) :
    Cache × List Event :=
  match fired with
  | some (k, e) =>
      ({ c with stats := { c.stats with evictions := c.stats.evictions + 1 } },
       [Event.evict k e.value EvictReason.ttl])
  | none => (c, [])

/-- `Cache.hit` (cache.go lines 22-27): increment the hit counter and
raise the hit notification with the decoded value. -/
def Cache.hit (c : Cache) (key : String) (v : Val) : Cache × List Event :=
  ({ c with stats := { c.stats with hits := c.stats.hits + 1 } }, [Event.hit key v])

/-- `Cache.miss` (cache.go lines 29-34): increment the miss counter and
raise the miss notification. -/
def Cache.miss (c : Cache) (key : String) : Cache × List Event :=
  ({ c with stats := { c.stats with misses := c.stats.misses + 1 } }, [Event.miss key])

/-- `Cache.updateKeyCount` (cache.go lines 367-371). -/
def Cache.updateKeyCount (c : Cache) : Cache :=
  { c with stats := { c.stats with keyCount := (c.store.len : Int) } }

/-- `Cache.decompressValue` (cache.go lines 427-447): with compression
configured the stored value must be a byte slice and is decoded by the
external compression collaborator (abstracted as `dec`); without
compression the stored value is returned directly and no failure is
possible. -/
def Cache.decompressValue (c : Cache)
    (dec : List Nat → Bool → Except String Val) (e : Entry) : Except String Val :=
  if c.compressionEnabled then
    match e.value with
    | Val.bytes data => dec data e.IsCompressed
    | _ => Except.error "serialized value is not byte slice"
  else
    Except.ok e.value

/-- `Cache.GetContext` (cache.go lines 188-218): read through the store;
a store miss or a decode failure records a miss, a decodable non-expired
entry records a hit with the decoded value.  The Go signature returns
`(any, bool)` — there is no error return. -/
def Cache.GetContext (c : Cache) (now : Int) (key : String)
    (dec : List Nat → Bool → Except String Val) : Cache × List Event × Option Val :=
  let r0 := c.store.get now key
  let r1 := Cache.applyCleanupCallback { c with store := r0.1 } r0.2.1
  match r0.2.2 with
  | none =>
      let r2 := r1.1.miss key
      (r2.1, r1.2 ++ r2.2, none)
  | some e =>
      match r1.1.decompressValue dec e with
      | Except.error _ =>
          let r2 := r1.1.miss key
          (r2.1, r1.2 ++ r2.2, none)
      | Except.ok v =>
          let r2 := r1.1.hit key v
          (r2.1, r1.2 ++ r2.2, some v)

/-- `Cache.createCompressedEntry` (cache.go lines 382-425): the entry is
built with the given ttl (positive ttl sets an expiration of now + ttl,
otherwise no expiration); with compression enabled the external
serialize-and-compress collaborator (abstracted as `ser`, yielding the
stored value and optional compression metadata) transforms the value,
otherwise the value is stored directly. -/
def Cache.createCompressedEntry (c : Cache)
    (ser : Val → Except String (Val × Option CompressionInfo))
    (now : Int) (v : Val) (ttl : Int) : Except String Entry :=
  let base := if 0 < ttl then Entry.new now Val.unit ttl else Entry.newWithoutTTL now Val.unit
  if c.compressionEnabled then
    match ser v with
    | Except.error e => Except.error e
    | Except.ok (sv, info) =>
        Except.ok { base with value := sv, compressionInfo := info }
  else
    Except.ok { base with value := v }

/-- `Cache.SetContext` (cache.go lines 228-251): a non-positive ttl is
replaced by the configured default TTL, the entry is built and written
through the store (raising the capacity-eviction callback effects), and
the key-count gauge refreshes on success. -/
def Cache.SetContext (c : Cache)
    (ser : Val → Except String (Val × Option CompressionInfo))
    (now : Int) (key : String) (v : Val) (ttl : Int) :
    Except String (Cache × List Event) :=
  let ttl2 := if ttl ≤ 0 then c.defaultTTL else ttl
  match c.createCompressedEntry ser now v ttl2 with
  | Except.error e => Except.error ("failed to create entry: " ++ e)
  | Except.ok entry =>
      let r0 := c.store.set key entry
      let r1 := Cache.applyEvictCallback { c with store := r0.1 } r0.2
      Except.ok (r1.1.updateKeyCount, r1.2)

/-- `Cache.Delete` (cache.go lines 259-274): delete through the store;
on success (which the memory store always reports, present key or not)
increment the invalidation counter, refresh the key count, and raise one
invalidate notification. -/
def Cache.Delete (c : Cache) (key : String) : Except String (Cache × List Event) :=
  let r := c.store.delete key
  let c2 := { c with store := r.1,
                     stats := { c.stats with invalidations := c.stats.invalidations + 1 } }
  Except.ok (c2.updateKeyCount, [Event.invalidate key])

/-- `Cache.Clear` (cache.go lines 277-295): snapshot the keys, clear the
store, and on success increment the invalidation counter and raise one
invalidate notification per snapshotted key, then refresh the key
count. -/
def Cache.Clear (c : Cache) : Except String (Cache × List Event) :=
  let keys := c.store.keys
  let store2 := c.store.clear
  let c2 := { c with store := store2,
                     stats := { c.stats with
                       invalidations := c.stats.invalidations + keys.length } }
  Except.ok (c2.updateKeyCount, keys.map Event.invalidate)

/-- `Cache.Has` (cache.go lines 320-326): read through the store and
report presence of a non-expired entry; no statistics update and no
hit/miss/invalidate notification — but the store read itself performs
lazy expiration with its callback effects. -/
def Cache.Has (c : Cache) (now : Int) (key : String) : Cache × List Event × Bool :=
  let r0 := c.store.get now key
  let r1 := Cache.applyCleanupCallback { c with store := r0.1 } r0.2.1
  match r0.2.2 with
  | some e => (r1.1, r1.2, !(e.IsExpired now))
  | none => (r1.1, r1.2, false)

/-- `StoreType` of the configuration (pkg/obcache config, not under
src/): memory or redis. -/
inductive StoreType where
  | memory : StoreType
  | redis : StoreType
  deriving DecidableEq, Repr

/-- The configuration surface the modelled coordinator reads.  Modelled
from the spec (§6): maximum entry count, default TTL, eviction policy
selection, cleanup sweep interval; pkg/obcache config.go is not under
src/. -/
structure Config where
  storeType : StoreType
  maxEntries : Int
  defaultTTL : Int
  evictionType : String
  cleanupInterval : Int
  compressionEnabled : Bool
  deriving DecidableEq, Repr

/-- Modelled from the spec: `NewDefaultConfig` (config.go, not under
src/) selects the in-memory store with LRU eviction, a positive entry
bound and a positive default TTL (values per the README examples:
1000 entries, five minutes, one-minute sweep), compression off —
matching part_001's default compression config test. -/
def NewDefaultConfig : Config :=
  { storeType := StoreType.memory, maxEntries := 1000,
    defaultTTL := 300000000000, evictionType := "",
    cleanupInterval := 60000000000, compressionEnabled := false }

/-- Outcome of `eviction.NewStrategy` (src/unnamed/part_000 lines
171-184): the lru and default cases run the in-src LRU constructor; the
lfu and fifo cases dispatch to `NewLFUStrategy`/`NewFIFOStrategy`, which
are repository code not under src/ — those dispatches are recorded as
such, with nothing asserted about their behavior. -/
inductive StrategyDispatch where
  | lru : StrategyInit → StrategyDispatch
  | lfu : StrategyDispatch
  | fifo : StrategyDispatch
  deriving DecidableEq, Repr

/-- `eviction.NewStrategy` (src/unnamed/part_000 lines 171-184): switch
on the eviction type — lru builds the LRU strategy, lfu and fifo
dispatch to their constructors outside src/, and the default case falls
back to LRU exactly as the source does. -/
def NewStrategy (typ : String) (capacity : Int) : StrategyDispatch :=
  if typ = "lru" then StrategyDispatch.lru (NewLRUStrategy capacity)
  else if typ = "lfu" then StrategyDispatch.lfu
  else if typ = "fifo" then StrategyDispatch.fifo
  else StrategyDispatch.lru (NewLRUStrategy capacity)

/-- Modelled from the spec: `memory.NewWithStrategy` (internal/store/
memory, not under src/) builds its strategy through `eviction.NewStrategy`
of src/unnamed/part_000; a panic in the strategy constructor therefore
propagates, an LFU/FIFO dispatch leaves the model (their constructors are
outside src/), and the background cleanup scheduler is outside this
sequential model. -/
inductive StoreInit where
  | ok : MemStore → StoreInit
  | panicked : String → StoreInit
  | external : String → StoreInit
  deriving DecidableEq, Repr

/-- Modelled from the spec: memory store construction wraps the strategy
built by `NewStrategy`; the LFU/FIFO dispatches are carried through as
out-of-model constructions. -/
def memoryNewWithStrategy (typ : String) (capacity : Int) : StoreInit :=
  match NewStrategy typ capacity with
  | StrategyDispatch.lru (StrategyInit.ok s) => StoreInit.ok (MemStore.mk s)
  | StrategyDispatch.lru (StrategyInit.panicked m) => StoreInit.panicked m
  | StrategyDispatch.lfu => StoreInit.external "lfu"
  | StrategyDispatch.fifo => StoreInit.external "fifo"

/-- `createMemoryStore` (cache.go lines 126-143): an empty eviction type
defaults to LRU, then the store is created with the config's capacity
(with or without the cleanup scheduler, which changes nothing in this
sequential model). -/
def createMemoryStore (cfg : Config) : StoreInit :=
  let evictionType := if cfg.evictionType = "" then "lru" else cfg.evictionType
  memoryNewWithStrategy evictionType cfg.maxEntries

/-- Outcome of `New`: a cache, an error returned to the caller, a panic
escaping the constructor, or a construction dispatched to eviction
strategy code outside src/ about which the model asserts nothing. -/
inductive NewResult where
  | ok : Cache → NewResult
  | err : String → NewResult
  | panicked : String → NewResult
  | external : String → NewResult
  deriving DecidableEq, Repr

/-- `New` (cache.go lines 56-117): a nil config is replaced by the
default config; the store is created per the store type (the redis
branch needs the external redis collaborator and is out of the model's
scope); compression initialization succeeds for the disabled default and
metrics default to a no-op; the constructed cache starts with zeroed
statistics and the wired callbacks. -/
def New (config : Option Config) : NewResult :=
  let cfg := match config with
    | none => NewDefaultConfig
    | some c => c
  match cfg.storeType with
  | StoreType.redis => NewResult.err "redis backend is an external collaborator"
  | StoreType.memory =>
      match createMemoryStore cfg with
      | StoreInit.panicked m => NewResult.panicked m
      | StoreInit.external m => NewResult.external m
      | StoreInit.ok st =>
          NewResult.ok
            { store := st,
              stats := { hits := 0, misses := 0, evictions := 0,
                         invalidations := 0, keyCount := 0 },
              defaultTTL := cfg.defaultTTL,
              compressionEnabled := cfg.compressionEnabled }

lemma memstore_get_none (s : MemStore) (now : Int) (key : String)
    (h : s.strategy.Peek key = none) :
    s.get now key = (s, none, none) := by
  unfold MemStore.get LRUStrategy.Get
  rw [show lookupKey s.strategy.items key = none from h]

lemma memstore_get_live (s : MemStore) (now : Int) (key : String) (e : Entry)
    (h : s.strategy.Peek key = some e) (hexp : e.IsExpired now = false) :
    s.get now key = (MemStore.mk (s.strategy.Get key).1, none, some e) := by
  unfold MemStore.get
  unfold LRUStrategy.Get
  rw [show lookupKey s.strategy.items key = some e from h]
  simp [hexp]

lemma memstore_get_expired (s : MemStore) (now : Int) (key : String) (e : Entry)
    (h : s.strategy.Peek key = some e) (hexp : e.IsExpired now = true) :
    s.get now key = (MemStore.mk (((s.strategy.Get key).1.Remove key)).1, some (key, e), none) := by
  unfold MemStore.get
  unfold LRUStrategy.Get
  rw [show lookupKey s.strategy.items key = some e from h]
  simp [hexp]

lemma memstore_set_strategy (s : MemStore) (key : String) (e : Entry) :
    (s.set key e).1.strategy = (s.strategy.Add key e).1 := by
  unfold MemStore.set
  rcases h : s.strategy.Add key e with ⟨st, ek, ee, ev⟩
  cases ee <;> cases ev <;> simp

lemma peek_after_add (l : LRUStrategy) (key : String) (e : Entry)
    (hpos : 0 < l.capacity) :
    (l.Add key e).1.Peek key = some e := by
  unfold LRUStrategy.Add LRUStrategy.Peek
  cases hk : lookupKey l.items key with
  | some e0 => simp [lookupKey]
  | none =>
      simp only []
      split
      · rename_i hc
        split
        · rename_i p hp
          have hne : l.items ≠ [] := by
            intro hnil
            rw [hnil] at hc
            simp at hc
            omega
          simp only [dropLast_cons_of_ne_nil _ hne, lookupKey, if_pos]
        · rename_i hp
          rw [List.getLast?_eq_none_iff] at hp
          exact absurd hp (List.cons_ne_nil _ _)
      · simp [lookupKey]

/-- C6 counterexample: constructing an LRU strategy with zero capacity —
and a cache whose config carries zero max entries — terminates in a
panic; no error value is produced for the caller (the embedding's result
types have a distinct panic constructor, and the Go strategy constructor
has no error return at all), so construction does not "fail with an
error reported to the caller". -/
theorem new_lru_strategy_zero_capacity_panics :
    NewLRUStrategy 0 =
      StrategyInit.panicked "failed to create LRU cache: must provide a positive size" ∧
    New (some { storeType := StoreType.memory, maxEntries := 0, defaultTTL := 10,
                evictionType := "", cleanupInterval := 0, compressionEnabled := false }) =
      NewResult.panicked "failed to create LRU cache: must provide a positive size" := by
  constructor
  · rfl
  · rfl

/-- C6 (amended): constructing an LRU eviction strategy with
non-positive capacity — and a cache whose memory-store configuration
carries non-positive max entries under the default (LRU) eviction
dispatch — never yields a usable value, but the failure mode is a panic
escaping the constructor, not an error returned to the caller. -/
theorem construction_nonpositive_capacity_panics (capacity : Int) (cfg : Config)
    (hcap : capacity ≤ 0)
    (hmem : cfg.storeType = StoreType.memory) (hent : cfg.maxEntries ≤ 0)
    (hlru : cfg.evictionType = "") :
    NewLRUStrategy capacity =
      StrategyInit.panicked "failed to create LRU cache: must provide a positive size" ∧
    New (some cfg) =
      NewResult.panicked "failed to create LRU cache: must provide a positive size" := by
  refine ⟨by simp [NewLRUStrategy, hcap], ?_⟩
  simp [New, createMemoryStore, memoryNewWithStrategy, NewStrategy, NewLRUStrategy,
    hmem, hent, hlru]

/-- Witness for C6's amended theorem at capacity -1. -/
theorem construction_nonpositive_capacity_panics_witness :
    NewLRUStrategy (-1) =
      StrategyInit.panicked "failed to create LRU cache: must provide a positive size" :=
  (construction_nonpositive_capacity_panics (-1)
    { storeType := StoreType.memory, maxEntries := -1, defaultTTL := 10,
      evictionType := "", cleanupInterval := 0, compressionEnabled := false }
    (by decide) (by decide) (by decide) (by decide)).1

/-- C9: `New` with a nil configuration substitutes the default
configuration and returns a usable cache — in-memory store with the
default capacity, positive default TTL, zeroed statistics — on which a
set followed by a get round-trips the value as a hit. -/
theorem new_nil_config_ok :
    ∃ c, New none = NewResult.ok c ∧
      c.store.len = 0 ∧ c.store.strategy.capacity = 1000 ∧ 0 < c.defaultTTL ∧
      c.stats = { hits := 0, misses := 0, evictions := 0, invalidations := 0,
                  keyCount := 0 } ∧
      ∃ r, c.SetContext (fun v => Except.ok (v, none)) 0 "k" (Val.num 7) 0 =
             Except.ok r ∧
        (r.1.GetContext 1 "k" (fun _ _ => Except.error "unused")).2.2 =
          some (Val.num 7) ∧
        (r.1.GetContext 1 "k" (fun _ _ => Except.error "unused")).1.stats.hits = 1 := by
  refine ⟨_, rfl, rfl, rfl, by decide, rfl, _, rfl, ?_, ?_⟩
  · decide
  · decide

lemma applyEvictCallback_store (c : Cache) (fired : Option (String × Entry)) :
    (c.applyEvictCallback fired).1.store = c.store := by
  cases fired with
  | none => rfl
  | some p => rcases p with ⟨k, e⟩; rfl

lemma decompressValue_store_update (c : Cache) (s : MemStore)
    (dec : List Nat → Bool → Except String Val) (e : Entry) :
    (({ c with store := s } : Cache).decompressValue dec e) = c.decompressValue dec e := rfl

lemma createCompressedEntry_expiresAt (c : Cache)
    (ser : Val → Except String (Val × Option CompressionInfo))
    (now : Int) (v : Val) (ttl : Int) (e : Entry)
    (h : c.createCompressedEntry ser now v ttl = Except.ok e) :
    e.expiresAt = if 0 < ttl then some (now + ttl) else none := by
  simp only [Cache.createCompressedEntry] at h
  by_cases hce : c.compressionEnabled = true
  · rw [if_pos hce] at h
    cases hs : ser v with
    | error m => rw [hs] at h; simp at h
    | ok p =>
        rcases p with ⟨sv, info⟩
        rw [hs] at h
        simp only [Except.ok.injEq] at h
        rw [← h]
        by_cases ht : 0 < ttl
        · simp [ht, Entry.new]
        · simp [ht, Entry.newWithoutTTL]
  · rw [if_neg hce] at h
    simp only [Except.ok.injEq] at h
    rw [← h]
    by_cases ht : 0 < ttl
    · simp [ht, Entry.new]
    · simp [ht, Entry.newWithoutTTL]

lemma setContext_ok_strategy (c : Cache)
    (ser : Val → Except String (Val × Option CompressionInfo))
    (now : Int) (key : String) (v : Val) (ttl : Int) (c2 : Cache) (evts : List Event)
    (h : c.SetContext ser now key v ttl = Except.ok (c2, evts)) :
    ∃ entry, c.createCompressedEntry ser now v (if ttl ≤ 0 then c.defaultTTL else ttl) =
        Except.ok entry ∧
      c2.store.strategy = (c.store.strategy.Add key entry).1 := by
  cases hce : c.createCompressedEntry ser now v (if ttl ≤ 0 then c.defaultTTL else ttl) with
  | error m =>
      simp only [Cache.SetContext, hce] at h
      exact Except.noConfusion h
  | ok entry =>
      simp only [Cache.SetContext, hce, Except.ok.injEq, Prod.mk.injEq] at h
      obtain ⟨h1, h2⟩ := h
      refine ⟨entry, rfl, ?_⟩
      rw [← h1]
      calc ((Cache.applyEvictCallback { c with store := (c.store.set key entry).1 }
              (c.store.set key entry).2).1.updateKeyCount).store.strategy
          = (Cache.applyEvictCallback { c with store := (c.store.set key entry).1 }
              (c.store.set key entry).2).1.store.strategy := rfl
        _ = ({ c with store := (c.store.set key entry).1 } : Cache).store.strategy := by
              rw [applyEvictCallback_store]
        _ = (c.store.set key entry).1.strategy := rfl
        _ = (c.store.strategy.Add key entry).1 := memstore_set_strategy c.store key entry

/-- C5: a `set` with non-positive ttl behaves exactly as a `set` with the
configured default TTL; with a positive configured default the stored
entry always carries expiration now + default, and the stored entry is
unexpiring only when the configured default itself is the explicit
non-expiring option — never because of the non-positive ttl argument
alone. -/
theorem set_default_ttl_substitution (c : Cache)
    (ser : Val → Except String (Val × Option CompressionInfo))
    (now : Int) (key : String) (v : Val) (ttl : Int)
    (httl : ttl ≤ 0) (hpos : 0 < c.store.strategy.capacity) :
    c.SetContext ser now key v ttl = c.SetContext ser now key v c.defaultTTL ∧
    (0 < c.defaultTTL → ∀ c2 evts, c.SetContext ser now key v ttl = Except.ok (c2, evts) →
       ∃ e, c2.store.strategy.Peek key = some e ∧
         e.expiresAt = some (now + c.defaultTTL)) ∧
    (∀ c2 evts, c.SetContext ser now key v ttl = Except.ok (c2, evts) →
       ∀ e, c2.store.strategy.Peek key = some e →
         (e.expiresAt = none ↔ c.defaultTTL ≤ 0)) := by
  have hif : (if ttl ≤ 0 then c.defaultTTL else ttl) = c.defaultTTL := if_pos httl
  refine ⟨?_, ?_, ?_⟩
  · have h2 : (if c.defaultTTL ≤ 0 then c.defaultTTL else c.defaultTTL) = c.defaultTTL :=
      ite_self _
    simp only [Cache.SetContext, hif, h2]
  · intro hd c2 evts hset
    obtain ⟨entry, hce, hstrat⟩ := setContext_ok_strategy c ser now key v ttl c2 evts hset
    rw [hif] at hce
    have hexp := createCompressedEntry_expiresAt c ser now v c.defaultTTL entry hce
    rw [if_pos hd] at hexp
    refine ⟨entry, ?_, hexp⟩
    rw [hstrat]
    exact peek_after_add c.store.strategy key entry hpos
  · intro c2 evts hset e hpeek
    obtain ⟨entry, hce, hstrat⟩ := setContext_ok_strategy c ser now key v ttl c2 evts hset
    rw [hif] at hce
    have hexp := createCompressedEntry_expiresAt c ser now v c.defaultTTL entry hce
    have hpk : c2.store.strategy.Peek key = some entry := by
      rw [hstrat]
      exact peek_after_add c.store.strategy key entry hpos
    rw [hpk] at hpeek
    have he : e = entry := (Option.some.inj hpeek).symm
    subst he
    rw [hexp]
    by_cases hd : 0 < c.defaultTTL
    · rw [if_pos hd]
      constructor
      · intro habs
        exact absurd habs (by simp)
      · intro hle
        exact absurd hle (by omega)
    · rw [if_neg hd]
      constructor
      · intro _
        omega
      · intro _
        rfl

/-- Witness for C5: on a concrete empty cache with default TTL 100,
setting with ttl -3 equals setting with ttl 100. -/
theorem set_default_ttl_substitution_witness :
    Cache.SetContext
      { store := MemStore.mk { items := [], capacity := 2, evictedKey := "",
                               evictedValue := none },
        stats := { hits := 0, misses := 0, evictions := 0, invalidations := 0,
                   keyCount := 0 },
        defaultTTL := 100, compressionEnabled := false }
      (fun v => Except.ok (v, none)) 5 "k" (Val.num 1) (-3) =
    Cache.SetContext
      { store := MemStore.mk { items := [], capacity := 2, evictedKey := "",
                               evictedValue := none },
        stats := { hits := 0, misses := 0, evictions := 0, invalidations := 0,
                   keyCount := 0 },
        defaultTTL := 100, compressionEnabled := false }
      (fun v => Except.ok (v, none)) 5 "k" (Val.num 1) 100 :=
  (set_default_ttl_substitution _ _ 5 "k" (Val.num 1) (-3)
    (by decide) (by decide)).1

/-- C8 counterexample: deleting a key that is not present still reports
success, increments the invalidation counter from 0 to 1, and raises an
invalidate notification — the claim that an absent-key delete increments
no counter and raises no notification is false on the code. -/
theorem delete_absent_key_counts_invalidation :
    Cache.Delete
      { store := MemStore.mk { items := [], capacity := 2, evictedKey := "",
                               evictedValue := none },
        stats := { hits := 0, misses := 0, evictions := 0, invalidations := 0,
                   keyCount := 0 },
        defaultTTL := 10, compressionEnabled := false } "k" =
      Except.ok
        ({ store := MemStore.mk { items := [], capacity := 2, evictedKey := "",
                                  evictedValue := none },
           stats := { hits := 0, misses := 0, evictions := 0, invalidations := 1,
                      keyCount := 0 },
           defaultTTL := 10, compressionEnabled := false },
         [Event.invalidate "k"]) := by
  rfl

/-- C8 (amended): `delete` increments the invalidation counter by one
and raises one invalidate notification on every call that the store
reports successful — which the memory store does whether or not the key
was present; `clear` increments the counter and raises a notification
once per key present before clearing and empties the store. -/
theorem delete_clear_invalidation_accounting (c : Cache) (key : String) :
    (∀ c2 evts, c.Delete key = Except.ok (c2, evts) →
       c2.stats.invalidations = c.stats.invalidations + 1 ∧
       evts = [Event.invalidate key]) ∧
    (∀ c2 evts, c.Clear = Except.ok (c2, evts) →
       c2.stats.invalidations = c.stats.invalidations + c.store.keys.length ∧
       evts = c.store.keys.map Event.invalidate ∧ c2.store.len = 0) := by
  constructor
  · intro c2 evts h
    simp only [Cache.Delete, Except.ok.injEq, Prod.mk.injEq] at h
    obtain ⟨h1, h2⟩ := h
    exact ⟨by rw [← h1]; rfl, h2.symm⟩
  · intro c2 evts h
    simp only [Cache.Clear, Except.ok.injEq, Prod.mk.injEq] at h
    obtain ⟨h1, h2⟩ := h
    refine ⟨by rw [← h1]; rfl, h2.symm, ?_⟩
    rw [← h1]
    rfl

/-- Witness for C8's amended theorem: clearing a one-entry cache
increments the invalidation counter by the one present key, raises one
invalidate notification for it, and empties the store. -/
theorem delete_clear_invalidation_accounting_witness :
    ({ store := MemStore.mk { items := [], capacity := 2, evictedKey := "",
                              evictedValue := none },
       stats := { hits := 0, misses := 0, evictions := 0, invalidations := 1,
                  keyCount := 0 },
       defaultTTL := 10, compressionEnabled := false } : Cache).stats.invalidations =
      ({ store := MemStore.mk
           { items := [("a", Entry.newWithoutTTL 0 (Val.num 1))], capacity := 2,
             evictedKey := "", evictedValue := none },
         stats := { hits := 0, misses := 0, evictions := 0, invalidations := 0,
                    keyCount := 0 },
         defaultTTL := 10, compressionEnabled := false } : Cache).stats.invalidations +
      ({ store := MemStore.mk
           { items := [("a", Entry.newWithoutTTL 0 (Val.num 1))], capacity := 2,
             evictedKey := "", evictedValue := none },
         stats := { hits := 0, misses := 0, evictions := 0, invalidations := 0,
                    keyCount := 0 },
         defaultTTL := 10, compressionEnabled := false } : Cache).store.keys.length :=
  ((delete_clear_invalidation_accounting
      { store := MemStore.mk
          { items := [("a", Entry.newWithoutTTL 0 (Val.num 1))], capacity := 2,
            evictedKey := "", evictedValue := none },
        stats := { hits := 0, misses := 0, evictions := 0, invalidations := 0,
                   keyCount := 0 },
        defaultTTL := 10, compressionEnabled := false } "a").2
    { store := MemStore.mk { items := [], capacity := 2, evictedKey := "",
                             evictedValue := none },
      stats := { hits := 0, misses := 0, evictions := 0, invalidations := 1,
                 keyCount := 0 },
      defaultTTL := 10, compressionEnabled := false }
    [Event.invalidate "a"] (by rfl)).1

/-- C10 (amended): `Has` returns true exactly when the key is tracked
with a non-expired entry; it leaves the hit, miss and invalidation
counters unchanged and raises no hit, miss or invalidate notification;
when the looked-up entry is expired, however, the store read lazily
removes it, incrementing the eviction counter and raising one
evict(ttl) notification — otherwise the eviction counter and the raised
notifications are untouched as well. -/
theorem has_spec (c : Cache) (now : Int) (key : String) (cr : Cache)
    (evts : List Event) (b : Bool) (h : c.Has now key = (cr, evts, b)) :
    (b = true ↔ ∃ e, c.store.strategy.Peek key = some e ∧ e.IsExpired now = false) ∧
    cr.stats.hits = c.stats.hits ∧ cr.stats.misses = c.stats.misses ∧
    cr.stats.invalidations = c.stats.invalidations ∧
    (∀ k v, Event.hit k v ∉ evts) ∧ (∀ k, Event.miss k ∉ evts) ∧
    (∀ k, Event.invalidate k ∉ evts) ∧
    ((∀ e, c.store.strategy.Peek key = some e → e.IsExpired now = false) →
       cr.stats.evictions = c.stats.evictions ∧ evts = []) ∧
    (∀ e, c.store.strategy.Peek key = some e → e.IsExpired now = true →
       cr.stats.evictions = c.stats.evictions + 1 ∧
       evts = [Event.evict key e.value EvictReason.ttl]) := by
  cases hk : c.store.strategy.Peek key with
  | none =>
      have hg := memstore_get_none c.store now key hk
      simp only [Cache.Has, hg, Cache.applyCleanupCallback, Prod.mk.injEq] at h
      obtain ⟨h1, h2, h3⟩ := h
      subst h1
      subst h2
      subst h3
      refine ⟨?_, rfl, rfl, rfl, by simp, by simp, by simp, fun _ => ⟨rfl, rfl⟩, ?_⟩
      · constructor
        · intro habs
          exact absurd habs (by simp)
        · rintro ⟨e, he, _⟩
          exact Option.noConfusion he
      · intro e he _
        exact Option.noConfusion he
  | some e =>
      cases hexp : e.IsExpired now with
      | false =>
          have hg := memstore_get_live c.store now key e hk hexp
          simp only [Cache.Has, hg, Cache.applyCleanupCallback, Prod.mk.injEq] at h
          obtain ⟨h1, h2, h3⟩ := h
          subst h1
          subst h2
          subst h3
          refine ⟨?_, rfl, rfl, rfl, by simp, by simp, by simp,
            fun _ => ⟨rfl, rfl⟩, ?_⟩
          · rw [hexp]
            simp only [Bool.not_false]
            constructor
            · intro _
              exact ⟨e, rfl, hexp⟩
            · intro _
              trivial
          · intro e2 he2 hexp2
            have he3 : e2 = e := (Option.some.inj he2).symm
            subst he3
            rw [hexp] at hexp2
            exact Bool.noConfusion hexp2
      | true =>
          have hg := memstore_get_expired c.store now key e hk hexp
          simp only [Cache.Has, hg, Cache.applyCleanupCallback, Prod.mk.injEq] at h
          obtain ⟨h1, h2, h3⟩ := h
          subst h1
          subst h2
          subst h3
          refine ⟨?_, rfl, rfl, rfl, by simp, by simp, by simp, ?_, ?_⟩
          · constructor
            · intro habs
              exact absurd habs (by simp)
            · rintro ⟨e2, he2, hexp2⟩
              have he3 : e2 = e := (Option.some.inj he2).symm
              subst he3
              rw [hexp] at hexp2
              exact Bool.noConfusion hexp2
          · intro hall
            have hcontra := hall e rfl
            rw [hexp] at hcontra
            exact Bool.noConfusion hcontra
          · intro e2 he2 _
            have he3 : e2 = e := (Option.some.inj he2).symm
            subst he3
            exact ⟨rfl, rfl⟩

/-- Witness for C10's amended theorem: on a cache holding a live entry,
`Has` reports true. -/
theorem has_spec_witness :
    (Cache.Has
      { store := MemStore.mk
          { items := [("k", Entry.newWithoutTTL 0 (Val.num 3))], capacity := 2,
            evictedKey := "", evictedValue := none },
        stats := { hits := 0, misses := 0, evictions := 0, invalidations := 0,
                   keyCount := 0 },
        defaultTTL := 10, compressionEnabled := false } 5 "k").2.2 = true :=
  ((has_spec
      { store := MemStore.mk
          { items := [("k", Entry.newWithoutTTL 0 (Val.num 3))], capacity := 2,
            evictedKey := "", evictedValue := none },
        stats := { hits := 0, misses := 0, evictions := 0, invalidations := 0,
                   keyCount := 0 },
        defaultTTL := 10, compressionEnabled := false } 5 "k"
      (Cache.Has
        { store := MemStore.mk
            { items := [("k", Entry.newWithoutTTL 0 (Val.num 3))], capacity := 2,
              evictedKey := "", evictedValue := none },
          stats := { hits := 0, misses := 0, evictions := 0, invalidations := 0,
                     keyCount := 0 },
          defaultTTL := 10, compressionEnabled := false } 5 "k").1
      (Cache.Has
        { store := MemStore.mk
            { items := [("k", Entry.newWithoutTTL 0 (Val.num 3))], capacity := 2,
              evictedKey := "", evictedValue := none },
          stats := { hits := 0, misses := 0, evictions := 0, invalidations := 0,
                     keyCount := 0 },
          defaultTTL := 10, compressionEnabled := false } 5 "k").2.1
      (Cache.Has
        { store := MemStore.mk
            { items := [("k", Entry.newWithoutTTL 0 (Val.num 3))], capacity := 2,
              evictedKey := "", evictedValue := none },
          stats := { hits := 0, misses := 0, evictions := 0, invalidations := 0,
                     keyCount := 0 },
          defaultTTL := 10, compressionEnabled := false } 5 "k").2.2
      rfl).1).mpr
    ⟨Entry.newWithoutTTL 0 (Val.num 3), rfl, rfl⟩

/-- C10 counterexample: `Has` on a key whose entry has expired does not
leave the statistics and notifications untouched — the lazy removal in
the store read increments the eviction counter from 0 to 1 and raises an
evict(ttl) notification, refuting the claim's frame condition. -/
theorem has_expired_key_side_effects :
    Cache.Has
      { store := MemStore.mk
          { items := [("k", { value := Val.num 1, createdAt := 0, expiresAt := some 3,
                              compressionInfo := none })], capacity := 2,
            evictedKey := "", evictedValue := none },
        stats := { hits := 0, misses := 0, evictions := 0, invalidations := 0,
                   keyCount := 0 },
        defaultTTL := 10, compressionEnabled := false } 5 "k" =
      ({ store := MemStore.mk
           { items := [], capacity := 2, evictedKey := "k",
             evictedValue := some { value := Val.num 1, createdAt := 0,
                                    expiresAt := some 3, compressionInfo := none } },
         stats := { hits := 0, misses := 0, evictions := 1, invalidations := 0,
                    keyCount := 0 },
         defaultTTL := 10, compressionEnabled := false },
       [Event.evict "k" (Val.num 1) EvictReason.ttl], false) := by
  decide

/-- C4: a cache read never surfaces an error — its result type carries
none at all — and every read is exactly one of the two sanctioned
outcomes: a not-found with the miss counter incremented once and a miss
notification raised (and no hit notification), or a hit with the hit
counter incremented once and a hit notification carrying the decoded
value; absence of the key, expiration of its entry, and a decode failure
each land in the not-found outcome, and a decodable live entry lands in
the hit outcome with its decoded value. -/
theorem get_never_fails (c : Cache) (now : Int) (key : String)
    (dec : List Nat → Bool → Except String Val) (cr : Cache) (evts : List Event)
    (res : Option Val) (h : c.GetContext now key dec = (cr, evts, res)) :
    ((res = none ∧ cr.stats.misses = c.stats.misses + 1 ∧
        cr.stats.hits = c.stats.hits ∧ Event.miss key ∈ evts ∧
        (∀ v, Event.hit key v ∉ evts)) ∨
     (∃ v, res = some v ∧ cr.stats.hits = c.stats.hits + 1 ∧
        cr.stats.misses = c.stats.misses ∧ Event.hit key v ∈ evts ∧
        Event.miss key ∉ evts)) ∧
    (c.store.strategy.Peek key = none → res = none) ∧
    (∀ e, c.store.strategy.Peek key = some e → e.IsExpired now = true → res = none) ∧
    (∀ e, c.store.strategy.Peek key = some e → e.IsExpired now = false →
       ∀ msg, c.decompressValue dec e = Except.error msg → res = none) ∧
    (∀ e, c.store.strategy.Peek key = some e → e.IsExpired now = false →
       ∀ v, c.decompressValue dec e = Except.ok v → res = some v) := by
  cases hk : c.store.strategy.Peek key with
  | none =>
      have hg := memstore_get_none c.store now key hk
      simp only [Cache.GetContext, hg, Cache.applyCleanupCallback, Cache.miss,
        List.nil_append, Prod.mk.injEq] at h
      obtain ⟨h1, h2, h3⟩ := h
      subst h1
      subst h2
      subst h3
      refine ⟨Or.inl ⟨rfl, rfl, rfl, by simp, by simp⟩, fun _ => rfl,
        fun _ _ _ => rfl, fun _ _ _ _ _ => rfl, ?_⟩
      intro e he _ v _
      exact Option.noConfusion he
  | some e =>
      cases hexp : e.IsExpired now with
      | true =>
          have hg := memstore_get_expired c.store now key e hk hexp
          simp only [Cache.GetContext, hg, Cache.applyCleanupCallback, Cache.miss,
            List.singleton_append, List.nil_append, Prod.mk.injEq] at h
          obtain ⟨h1, h2, h3⟩ := h
          subst h1
          subst h2
          subst h3
          refine ⟨Or.inl ⟨rfl, rfl, rfl, by simp, by simp⟩, fun _ => rfl,
            fun _ _ _ => rfl, fun _ _ _ _ _ => rfl, ?_⟩
          intro e2 he2 hexp2 v _
          have he3 : e2 = e := (Option.some.inj he2).symm
          subst he3
          rw [hexp] at hexp2
          exact Bool.noConfusion hexp2
      | false =>
          have hg := memstore_get_live c.store now key e hk hexp
          cases hdec : c.decompressValue dec e with
          | error msg =>
              simp only [Cache.GetContext, hg, Cache.applyCleanupCallback,
                decompressValue_store_update, hdec, Cache.miss, List.nil_append,
                Prod.mk.injEq] at h
              obtain ⟨h1, h2, h3⟩ := h
              subst h1
              subst h2
              subst h3
              refine ⟨Or.inl ⟨rfl, rfl, rfl, by simp, by simp⟩, fun _ => rfl,
                fun _ _ _ => rfl, fun _ _ _ _ _ => rfl, ?_⟩
              intro e2 he2 _ v hv
              have he3 : e2 = e := (Option.some.inj he2).symm
              subst he3
              rw [hdec] at hv
              exact Except.noConfusion hv
          | ok v =>
              simp only [Cache.GetContext, hg, Cache.applyCleanupCallback,
                decompressValue_store_update, hdec, Cache.hit, List.nil_append,
                Prod.mk.injEq] at h
              obtain ⟨h1, h2, h3⟩ := h
              subst h1
              subst h2
              subst h3
              refine ⟨Or.inr ⟨v, rfl, rfl, rfl, by simp, by simp⟩, ?_, ?_, ?_,
                fun e2 he2 _ v2 hv2 => ?_⟩
              · intro habs
                exact Option.noConfusion habs
              · intro e2 he2 hexp2
                have he3 : e2 = e := (Option.some.inj he2).symm
                subst he3
                rw [hexp] at hexp2
                exact Bool.noConfusion hexp2
              · intro e2 he2 _ msg hmsg
                have he3 : e2 = e := (Option.some.inj he2).symm
                subst he3
                rw [hdec] at hmsg
                exact Except.noConfusion hmsg
              · have he3 : e2 = e := (Option.some.inj he2).symm
                subst he3
                rw [hdec] at hv2
                rw [Except.ok.inj hv2]

/-- Witness for C4: on an empty cache a read is a miss with no error
surfaced. -/
theorem get_never_fails_witness :
    (Cache.GetContext
      { store := MemStore.mk { items := [], capacity := 2, evictedKey := "",
                               evictedValue := none },
        stats := { hits := 0, misses := 0, evictions := 0, invalidations := 0,
                   keyCount := 0 },
        defaultTTL := 10, compressionEnabled := false } 0 "k"
      (fun _ _ => Except.error "d")).2.2 = none :=
  (get_never_fails
    { store := MemStore.mk { items := [], capacity := 2, evictedKey := "",
                             evictedValue := none },
      stats := { hits := 0, misses := 0, evictions := 0, invalidations := 0,
                 keyCount := 0 },
      defaultTTL := 10, compressionEnabled := false } 0 "k"
    (fun _ _ => Except.error "d")
    (Cache.GetContext
      { store := MemStore.mk { items := [], capacity := 2, evictedKey := "",
                               evictedValue := none },
        stats := { hits := 0, misses := 0, evictions := 0, invalidations := 0,
                   keyCount := 0 },
        defaultTTL := 10, compressionEnabled := false } 0 "k"
      (fun _ _ => Except.error "d")).1
    (Cache.GetContext
      { store := MemStore.mk { items := [], capacity := 2, evictedKey := "",
                               evictedValue := none },
        stats := { hits := 0, misses := 0, evictions := 0, invalidations := 0,
                   keyCount := 0 },
        defaultTTL := 10, compressionEnabled := false } 0 "k"
      (fun _ _ => Except.error "d")).2.1
    (Cache.GetContext
      { store := MemStore.mk { items := [], capacity := 2, evictedKey := "",
                               evictedValue := none },
        stats := { hits := 0, misses := 0, evictions := 0, invalidations := 0,
                   keyCount := 0 },
        defaultTTL := 10, compressionEnabled := false } 0 "k"
      (fun _ _ => Except.error "d")).2.2
    rfl).2.1 rfl

end Obcache
